import Mathlib

/-!
Verification of the cookie-list localizer (`json_translator_rewrite.py`).

Strings are modelled as `List Char`; a Locale Map (Python `dict`) is an
association list with unique keys, looked up front-to-back.  The token
substitution engine, the recursive tree translator with Python-dict
insertion semantics, and the per-locale batch loop are embedded below,
followed by theorems about them.
-/

set_option maxRecDepth 4096

abbrev Str := List Char

abbrev LocaleMap := List (Str × Str)

/-- First-match association-list lookup, the semantics of a Python `dict`
with unique keys (`M[s]` / `M.get(s)`). -/
def lookupTok (M : LocaleMap) (s : Str) : Option Str :=
  match M with
  | [] => none
  | (k, v) :: t => if k = s then some v else lookupTok t s

/-- Character class of the token regex `[A-Za-z0-9_\-]+`. -/
def isTokenChar (c : Char) : Bool :=
  (('A' ≤ c && c ≤ 'Z') || ('a' ≤ c && c ≤ 'z') ||
    ('0' ≤ c && c ≤ '9') || c = '_' || c = '-')

/-- `token_re.sub(lambda m: translations.get(m.group(0), m.group(0)), s)`:
replace every maximal run of token characters by its translation when the
run is a key of `M`, leaving all other characters in place. -/
def subTokens (M : LocaleMap) : Str → Str
  | [] => []
  | c :: rest =>
    if isTokenChar c then
      (let run := c :: rest.takeWhile isTokenChar
       (lookupTok M run).getD run) ++ subTokens M (rest.dropWhile isTokenChar)
    else
      c :: subTokens M rest
termination_by s => s.length
decreasing_by
  · simpa using Nat.lt_succ_of_le (List.dropWhile_sublist isTokenChar).length_le
  · simp

/-- `replace_placeholders_in_string`: whole-string lookup first, then the
regex substitution pass. -/
def replace_placeholders_in_string (s : Str) (M : LocaleMap) : Str :=
  match lookupTok M s with
  | some v => v
  | none => subTokens M s

/-- Decompose a string into its maximal runs of token characters (lexemes,
tagged `true`) and maximal runs of other characters (separators, tagged
`false`). -/
def chunks : Str → List (Bool × Str)
  | [] => []
  | c :: rest =>
    (isTokenChar c, c :: rest.takeWhile (fun x => isTokenChar x == isTokenChar c)) ::
      chunks (rest.dropWhile (fun x => isTokenChar x == isTokenChar c))
termination_by s => s.length
decreasing_by
  simpa using Nat.lt_succ_of_le (List.dropWhile_sublist _).length_le

/-- A chunk is nonempty and homogeneous: all its characters agree with its tag. -/
def chunkOk (p : Bool × Str) : Prop :=
  p.2 ≠ [] ∧ ∀ c ∈ p.2, isTokenChar c = p.1

/-- Adjacent chunks carry distinct tags (each run is maximal). -/
def alternating : List (Bool × Str) → Prop
  | [] => True
  | [_] => True
  | a :: b :: t => a.1 ≠ b.1 ∧ alternating (b :: t)

/-- The lexemes of a string: the token-character runs of its decomposition. -/
def lexemeList (s : Str) : List Str :=
  ((chunks s).filter (fun p => p.1)).map (fun p => p.2)

/-- Substitute one chunk: a lexeme is looked up in `M` (kept verbatim when
absent), a separator is kept verbatim. -/
def substChunk (M : LocaleMap) (p : Bool × Str) : Str :=
  if p.1 then (lookupTok M p.2).getD p.2 else p.2

theorem head_dropWhile_not (p : Char → Bool) :
    ∀ (l : List Char) (d : Char) (t : List Char),
      List.dropWhile p l = d :: t → p d = false := by
  intro l
  induction l with
  | nil => intro d t h; simp [List.dropWhile] at h
  | cons a l ih =>
    intro d t h
    by_cases ha : p a
    · rw [List.dropWhile_cons_of_pos ha] at h
      exact ih d t h
    · rw [List.dropWhile_cons_of_neg ha] at h
      cases h
      simpa using ha

theorem chunks_head_tag :
    ∀ t b cs rest, chunks t = (b, cs) :: rest → ∃ d t2, t = d :: t2 ∧ b = isTokenChar d := by
  intro t b cs rest h
  cases t with
  | nil => simp [chunks] at h
  | cons d t2 =>
    refine ⟨d, t2, rfl, ?_⟩
    rw [chunks] at h
    exact (Prod.mk.injEq .. ▸ (List.cons.injEq .. ▸ h).1).1.symm

theorem chunks_flatten (s : Str) : ((chunks s).map Prod.snd).flatten = s := by
  induction s using chunks.induct with
  | case1 => simp [chunks]
  | case2 c rest ih =>
    simp only [chunks, List.map_cons, List.flatten_cons, ih]
    simp [List.takeWhile_append_dropWhile]

theorem chunks_ok (s : Str) : ∀ p ∈ chunks s, chunkOk p := by
  induction s using chunks.induct with
  | case1 => simp [chunks]
  | case2 c rest ih =>
    intro p hp
    simp only [chunks, List.mem_cons] at hp
    rcases hp with h | h
    · subst h
      refine ⟨by simp, ?_⟩
      intro x hx
      rcases List.mem_cons.mp hx with h | h
      · simp [h]
      · have := List.mem_takeWhile_imp h
        simpa using this
    · exact ih p h

theorem chunks_alternating (s : Str) : alternating (chunks s) := by
  induction s using chunks.induct with
  | case1 => simp [chunks, alternating]
  | case2 c rest ih =>
    rw [chunks]
    rcases hrec : chunks (rest.dropWhile (fun x => isTokenChar x == isTokenChar c)) with
      _ | ⟨⟨b2, cs2⟩, t2⟩
    · exact trivial
    · refine ⟨?_, hrec ▸ ih⟩
      obtain ⟨d, t3, hd, hb⟩ := chunks_head_tag _ _ _ _ hrec
      have hnot := head_dropWhile_not _ _ _ _ hd
      simp only [beq_eq_false_iff_ne, ne_eq] at hnot
      simpa [hb] using Ne.symm hnot

theorem subTokens_sep_append (M : LocaleMap) (run t : Str)
    (h : ∀ x ∈ run, isTokenChar x = false) :
    subTokens M (run ++ t) = run ++ subTokens M t := by
  induction run with
  | nil => simp
  | cons a r ih =>
    have ha : isTokenChar a = false := h a (List.mem_cons_self a r)
    rw [List.cons_append, subTokens, if_neg (by simp [ha])]
    simp only [List.cons_append, List.cons.injEq, true_and]
    exact ih (fun x hx => h x (List.mem_cons_of_mem a hx))

theorem subTokens_eq_chunks (M : LocaleMap) (s : Str) :
    subTokens M s = ((chunks s).map (substChunk M)).flatten := by
  induction s using chunks.induct with
  | case1 => simp [chunks, subTokens]
  | case2 c rest ih =>
    by_cases hb : isTokenChar c
    · have hp : (fun x => isTokenChar x == isTokenChar c) = isTokenChar := by
        funext x; simp [hb]
      rw [chunks, subTokens, if_pos hb]
      rw [hp] at ih ⊢
      simp only [List.map_cons, List.flatten_cons, substChunk, hb, if_pos]
      rw [ih]
    · have hp : (fun x => isTokenChar x == isTokenChar c) = (fun x => !isTokenChar x) := by
        funext x; simp [hb]
      rw [chunks, subTokens, if_neg hb]
      rw [hp] at ih ⊢
      simp only [List.map_cons, List.flatten_cons, substChunk]
      rw [if_neg (by simpa using hb)]
      have hsplit : rest = rest.takeWhile (fun x => !isTokenChar x) ++
          rest.dropWhile (fun x => !isTokenChar x) :=
        (List.takeWhile_append_dropWhile ..).symm
      calc c :: subTokens M rest
          = c :: subTokens M (rest.takeWhile (fun x => !isTokenChar x) ++
              rest.dropWhile (fun x => !isTokenChar x)) := by rw [← hsplit]
        _ = c :: (rest.takeWhile (fun x => !isTokenChar x) ++
              subTokens M (rest.dropWhile (fun x => !isTokenChar x))) := by
            rw [subTokens_sep_append]
            intro x hx
            simpa using List.mem_takeWhile_imp hx
        _ = _ := by rw [ih]; simp

theorem subTokens_id (M : LocaleMap) (s : Str)
    (h : ∀ l ∈ lexemeList s, lookupTok M l = none) :
    subTokens M s = s := by
  rw [subTokens_eq_chunks]
  have : (chunks s).map (substChunk M) = (chunks s).map Prod.snd := by
    apply List.map_congr_left
    intro p hp
    rcases p with ⟨b, cs⟩
    cases b with
    | false => simp [substChunk]
    | true =>
      have hl : cs ∈ lexemeList s := by
        simp only [lexemeList, List.mem_map, List.mem_filter]
        exact ⟨(true, cs), ⟨hp, rfl⟩, rfl⟩
      simp [substChunk, h cs hl]
  rw [this, chunks_flatten]

/-- A JSON-shaped Document Tree.  An object is an association list in
insertion order, the representation of a Python `dict`. -/
inductive Json where
  | obj : List (Str × Json) → Json
  | arr : List Json → Json
  | str : Str → Json
  | num : Int → Json
  | bool : Bool → Json
  | null : Json

instance : Inhabited Json := ⟨Json.null⟩

/-- Python `d[k] = v`: update the value in place when `k` is already a key
(keeping its position), otherwise append the new entry at the end. -/
def dictInsert (d : List (Str × Json)) (k : Str) (v : Json) : List (Str × Json) :=
  if d.any (fun p => p.1 == k) then
    d.map (fun p => if p.1 = k then (k, v) else p)
  else d ++ [(k, v)]

/-- Build a Python `dict` from a list of assignments, first to last. -/
def pyDictOf (ps : List (Str × Json)) : List (Str × Json) :=
  ps.foldl (fun d p => dictInsert d p.1 p.2) []

/-- The fixed `FIELD_KEY_TO_TRANSLATION_KEY` table of the script. -/
def FIELD_KEY_TO_TRANSLATION_KEY : List (Str × Str) :=
  [("Cookie subgroup".toList, "CookiePolicyTableCookeiSubgroup".toList),
   ("Cookies".toList, "CookiePolicyTableCookies".toList),
   ("Cookies used".toList, "CookiePolicyTableCookiesUsed".toList),
   ("Lifespan".toList, "CookiePolicyTableLifespan".toList)]

/-- Output key of one object entry: when `translate_keys` is set and the key
is in the field table, look the field token up in the Locale Map, falling
back to the original key; otherwise keep the key. -/
def newKeyFor (tk : Bool) (M : LocaleMap) (k : Str) : Str :=
  if tk then
    match lookupTok FIELD_KEY_TO_TRANSLATION_KEY k with
    | some token => (lookupTok M token).getD k
    | none => k
  else k

mutual

/-- `translate_structure`: dict entries are rebuilt one by one into a fresh
dict (with renamed keys when `tk` is set), lists element-wise, strings via
the substitution engine, and all other leaves unchanged. -/
def translate_structure (M : LocaleMap) (tk : Bool) : Json → Json
  | .obj entries => .obj (pyDictOf (translateEntries M tk entries))
  | .arr items => .arr (translateItems M tk items)
  | .str s => .str (replace_placeholders_in_string s M)
  | .num n => .num n
  | .bool b => .bool b
  | .null => .null

/-- The `(new_key, translated value)` assignment list of an object's entries. -/
def translateEntries (M : LocaleMap) (tk : Bool) : List (Str × Json) → List (Str × Json)
  | [] => []
  | (k, v) :: t => (newKeyFor tk M k, translate_structure M tk v) :: translateEntries M tk t

/-- Element-wise translation of a JSON array. -/
def translateItems (M : LocaleMap) (tk : Bool) : List Json → List Json
  | [] => []
  | v :: t => translate_structure M tk v :: translateItems M tk t

end

mutual

/-- Well-formedness of a tree that came from `json.load`: every object has
pairwise-distinct keys. -/
def wfJson : Json → Prop
  | .obj es => (es.map Prod.fst).Nodup ∧ wfEntries es
  | .arr xs => wfItems xs
  | .str _ => True
  | .num _ => True
  | .bool _ => True
  | .null => True

def wfEntries : List (Str × Json) → Prop
  | [] => True
  | (_, v) :: t => wfJson v ∧ wfEntries t

def wfItems : List Json → Prop
  | [] => True
  | v :: t => wfJson v ∧ wfItems t

end

mutual

/-- The shape of a tree: keys, array lengths and non-string leaves kept,
every string leaf collapsed to the empty string. -/
def skeleton : Json → Json
  | .obj es => .obj (skeletonEntries es)
  | .arr xs => .arr (skeletonItems xs)
  | .str _ => .str []
  | .num n => .num n
  | .bool b => .bool b
  | .null => .null

def skeletonEntries : List (Str × Json) → List (Str × Json)
  | [] => []
  | (k, v) :: t => (k, skeleton v) :: skeletonEntries t

def skeletonItems : List Json → List Json
  | [] => []
  | v :: t => skeleton v :: skeletonItems t

end

/-- Pretty output path of a locale: `os.path.join(outdir, f"cookie_data_{locale}.json")`
with the default `out` directory. -/
def prettyFile (locale : Str) : Str :=
  "out/cookie_data_".toList ++ locale ++ ".json".toList

/-- Minified output path of a locale:
`os.path.join(minout, f"cookie_data_{locale}.min.json")` with the default
`minified` directory. -/
def minFile (locale : Str) : Str :=
  "minified/cookie_data_".toList ++ locale ++ ".min.json".toList

/-- The `for locale, tmap in translations.items()` loop of `main`.  `w`
says whether writing a given path succeeds.  A failed write raises an
uncaught exception, so the loop stops there.  Returns the files written
(path and document), the number of locales fully processed, and the locale
at which the run aborted, if any. -/
def mainLoop (w : Str → Bool) (data : Json) (tk : Bool) :
    List (Str × LocaleMap) → List (Str × Json) × Nat × Option Str
  | [] => ([], 0, none)
  | (locale, M) :: rest =>
    let doc := translate_structure M tk data
    if w (prettyFile locale) = false then
      ([], 0, some locale)
    else if w (minFile locale) = false then
      ([(prettyFile locale, doc)], 0, some locale)
    else
      let r := mainLoop w data tk rest
      ((prettyFile locale, doc) :: (minFile locale, doc) :: r.1, r.2.1 + 1, r.2.2)

theorem translateEntries_eq_map (M : LocaleMap) (tk : Bool) (es : List (Str × Json)) :
    translateEntries M tk es =
      es.map (fun p => (newKeyFor tk M p.1, translate_structure M tk p.2)) := by
  induction es with
  | nil => simp [translateEntries]
  | cons p t ih => cases p; simp [translateEntries, ih]

theorem translateItems_eq_map (M : LocaleMap) (tk : Bool) (xs : List Json) :
    translateItems M tk xs = xs.map (translate_structure M tk) := by
  induction xs with
  | nil => simp [translateItems]
  | cons v t ih => simp [translateItems, ih]

theorem newKeyFor_off (M : LocaleMap) (k : Str) : newKeyFor false M k = k := by
  simp [newKeyFor]

theorem newKeyFor_nil (tk : Bool) (k : Str) : newKeyFor tk [] k = k := by
  rcases h : lookupTok FIELD_KEY_TO_TRANSLATION_KEY k with _ | token <;>
    simp only [newKeyFor, h] <;> cases tk <;> simp [lookupTok]

theorem foldl_dictInsert_eq_append (ps : List (Str × Json)) :
    ∀ acc : List (Str × Json), ((acc ++ ps).map Prod.fst).Nodup →
      ps.foldl (fun d p => dictInsert d p.1 p.2) acc = acc ++ ps := by
  induction ps with
  | nil => intro acc _; simp
  | cons p t ih =>
    intro acc h
    have hmem : p.1 ∉ acc.map Prod.fst := by
      intro hc
      rw [List.map_append, List.nodup_append] at h
      have hin : p.1 ∈ (p :: t).map Prod.fst := by
        rw [List.map_cons]
        exact List.mem_cons_self _ _
      exact h.2.2 hc hin
    have hany : acc.any (fun q => q.1 == p.1) = false := by
      rw [List.any_eq_false]
      intro q hq hqk
      exact hmem (eq_of_beq hqk ▸ List.mem_map_of_mem Prod.fst hq)
    have hins : dictInsert acc p.1 p.2 = acc ++ [p] := by
      simp [dictInsert, hany]
    rw [List.foldl_cons, hins, ih (acc ++ [p]) (by simpa using h)]
    simp

theorem pyDictOf_nodup (ps : List (Str × Json)) (h : (ps.map Prod.fst).Nodup) :
    pyDictOf ps = ps := by
  simpa [pyDictOf] using foldl_dictInsert_eq_append ps [] (by simpa using h)

mutual

/-- No string leaf of the tree is a whole-string key of `M`, and no lexeme
of a string leaf is a key of `M`. -/
def tokenFree (M : LocaleMap) : Json → Prop
  | .obj es => tokenFreeEntries M es
  | .arr xs => tokenFreeItems M xs
  | .str s => lookupTok M s = none ∧ ∀ l ∈ lexemeList s, lookupTok M l = none
  | .num _ => True
  | .bool _ => True
  | .null => True

def tokenFreeEntries (M : LocaleMap) : List (Str × Json) → Prop
  | [] => True
  | (_, v) :: t => tokenFree M v ∧ tokenFreeEntries M t

def tokenFreeItems (M : LocaleMap) : List Json → Prop
  | [] => True
  | v :: t => tokenFree M v ∧ tokenFreeItems M t

end

theorem keys_translateEntries (M : LocaleMap) (tk : Bool) (es : List (Str × Json)) :
    (translateEntries M tk es).map Prod.fst = es.map (fun p => newKeyFor tk M p.1) := by
  induction es with
  | nil => simp [translateEntries]
  | cons p t ih => cases p; simp [translateEntries, ih]

theorem keys_translateEntries_off (M : LocaleMap) (es : List (Str × Json)) :
    (translateEntries M false es).map Prod.fst = es.map Prod.fst := by
  rw [keys_translateEntries]
  exact List.map_congr_left (fun p _ => newKeyFor_off M p.1)

theorem skeleton_translate_off (M : LocaleMap) :
    ∀ t : Json, wfJson t → skeleton (translate_structure M false t) = skeleton t := by
  intro t
  refine translate_structure.induct M false
    (fun t => wfJson t → skeleton (translate_structure M false t) = skeleton t)
    (fun xs => wfItems xs → skeletonItems (translateItems M false xs) = skeletonItems xs)
    (fun es => wfEntries es → skeletonEntries (translateEntries M false es) = skeletonEntries es)
    ?_ ?_ ?_ ?_ ?_ ?_ ?_ ?_ ?_ ?_ t
  · intro es ih h
    rw [wfJson] at h
    rw [translate_structure, pyDictOf_nodup _ (by rw [keys_translateEntries_off]; exact h.1)]
    rw [skeleton, skeleton, ih h.2]
  · intro xs ih h
    rw [wfJson] at h
    rw [translate_structure, skeleton, skeleton, ih h]
  · intro s _
    rw [translate_structure, skeleton, skeleton]
  · intro n _
    rw [translate_structure]
  · intro b _
    rw [translate_structure]
  · intro _
    rw [translate_structure]
  · intro _
    rfl
  · intro k v t ih1 ih2 h
    rw [wfEntries] at h
    rw [translateEntries, skeletonEntries, skeletonEntries, ih1 h.1, ih2 h.2,
      newKeyFor_off]
  · intro _
    rfl
  · intro v t ih1 ih2 h
    rw [wfItems] at h
    rw [translateItems, skeletonItems, skeletonItems, ih1 h.1, ih2 h.2]

theorem replace_id_of_tokenFree (M : LocaleMap) (s : Str)
    (h1 : lookupTok M s = none) (h2 : ∀ l ∈ lexemeList s, lookupTok M l = none) :
    replace_placeholders_in_string s M = s := by
  rw [replace_placeholders_in_string, h1]
  exact subTokens_id M s h2

theorem translate_id_of_tokenFree (M : LocaleMap) :
    ∀ t : Json, wfJson t → tokenFree M t → translate_structure M false t = t := by
  intro t
  refine translate_structure.induct M false
    (fun t => wfJson t → tokenFree M t → translate_structure M false t = t)
    (fun xs => wfItems xs → tokenFreeItems M xs → translateItems M false xs = xs)
    (fun es => wfEntries es → tokenFreeEntries M es → translateEntries M false es = es)
    ?_ ?_ ?_ ?_ ?_ ?_ ?_ ?_ ?_ ?_ t
  · intro es ih h hf
    rw [wfJson] at h
    rw [tokenFree] at hf
    rw [translate_structure, ih h.2 hf, pyDictOf_nodup _ h.1]
  · intro xs ih h hf
    rw [wfJson] at h
    rw [tokenFree] at hf
    rw [translate_structure, ih h hf]
  · intro s _ hf
    rw [tokenFree] at hf
    rw [translate_structure, replace_id_of_tokenFree M s hf.1 hf.2]
  · intro n _ _
    rw [translate_structure]
  · intro b _ _
    rw [translate_structure]
  · intro _ _
    rw [translate_structure]
  · intro _ _
    rfl
  · intro k v t ih1 ih2 h hf
    rw [wfEntries] at h
    rw [tokenFreeEntries] at hf
    rw [translateEntries, ih1 h.1 hf.1, ih2 h.2 hf.2, newKeyFor_off]
  · intro _ _
    rfl
  · intro v t ih1 ih2 h hf
    rw [wfItems] at h
    rw [tokenFreeItems] at hf
    rw [translateItems, ih1 h.1 hf.1, ih2 h.2 hf.2]

theorem replace_nil_id (s : Str) : replace_placeholders_in_string s [] = s := by
  refine replace_id_of_tokenFree [] s rfl ?_
  intro l _
  rfl

theorem translate_nil_id (tk : Bool) :
    ∀ t : Json, wfJson t → translate_structure [] tk t = t := by
  intro t
  refine translate_structure.induct [] tk
    (fun t => wfJson t → translate_structure [] tk t = t)
    (fun xs => wfItems xs → translateItems [] tk xs = xs)
    (fun es => wfEntries es → translateEntries [] tk es = es)
    ?_ ?_ ?_ ?_ ?_ ?_ ?_ ?_ ?_ ?_ t
  · intro es ih h
    rw [wfJson] at h
    rw [translate_structure, ih h.2, pyDictOf_nodup _ h.1]
  · intro xs ih h
    rw [wfJson] at h
    rw [translate_structure, ih h]
  · intro s _
    rw [translate_structure, replace_nil_id]
  · intro n _
    rw [translate_structure]
  · intro b _
    rw [translate_structure]
  · intro _
    rw [translate_structure]
  · intro _
    rfl
  · intro k v t ih1 ih2 h
    rw [wfEntries] at h
    rw [translateEntries, ih1 h.1, ih2 h.2, newKeyFor_nil]
  · intro _
    rfl
  · intro v t ih1 ih2 h
    rw [wfItems] at h
    rw [translateItems, ih1 h.1, ih2 h.2]

/-- Lower-casing, the `s.lower()` used by the spec's optional fallback. -/
def lowerStr (s : Str) : Str := s.map Char.toLower

theorem prettyFile_inj (l1 l2 : Str) (h : prettyFile l1 = prettyFile l2) : l1 = l2 := by
  rw [prettyFile, prettyFile, List.append_assoc, List.append_assoc] at h
  exact List.append_cancel_right (List.append_cancel_left h)

theorem minFile_inj (l1 l2 : Str) (h : minFile l1 = minFile l2) : l1 = l2 := by
  rw [minFile, minFile, List.append_assoc, List.append_assoc] at h
  exact List.append_cancel_right (List.append_cancel_left h)

theorem pretty_ne_min (l1 l2 : Str) : prettyFile l1 ≠ minFile l2 := by
  intro h
  have h0 : (prettyFile l1).head? = (minFile l2).head? := by rw [h]
  have h1 : (prettyFile l1).head? = some 'o' := rfl
  have h2 : (minFile l2).head? = some 'm' := rfl
  rw [h1, h2] at h0
  exact absurd h0 (by decide)

/-- All output paths of a run over a translation table, in write order. -/
def pathsOf (table : List (Str × LocaleMap)) : List Str :=
  table.flatMap (fun p => [prettyFile p.1, minFile p.1])

theorem mem_pathsOf (x : Str) (table : List (Str × LocaleMap)) :
    x ∈ pathsOf table ↔ ∃ p ∈ table, x = prettyFile p.1 ∨ x = minFile p.1 := by
  simp only [pathsOf, List.mem_flatMap, List.mem_cons, List.mem_singleton,
    List.not_mem_nil, or_false]

theorem pathsOf_nodup (table : List (Str × LocaleMap))
    (h : (table.map Prod.fst).Nodup) : (pathsOf table).Nodup := by
  induction table with
  | nil => simp [pathsOf]
  | cons p t ih =>
    rw [List.map_cons, List.nodup_cons] at h
    have hp : prettyFile p.1 ∉ pathsOf t := by
      intro hc
      obtain ⟨q, hq, hor⟩ := (mem_pathsOf _ t).mp hc
      rcases hor with he | he
      · exact h.1 (prettyFile_inj _ _ he ▸ List.mem_map_of_mem Prod.fst hq)
      · exact pretty_ne_min p.1 q.1 he
    have hm : minFile p.1 ∉ pathsOf t := by
      intro hc
      obtain ⟨q, hq, hor⟩ := (mem_pathsOf _ t).mp hc
      rcases hor with he | he
      · exact pretty_ne_min q.1 p.1 he.symm
      · exact h.1 (minFile_inj _ _ he ▸ List.mem_map_of_mem Prod.fst hq)
    have hstep : pathsOf (p :: t) = prettyFile p.1 :: minFile p.1 :: pathsOf t := by
      simp [pathsOf]
    rw [hstep, List.nodup_cons, List.nodup_cons]
    refine ⟨?_, hm, ih h.2⟩
    intro hc
    rcases List.mem_cons.mp hc with he | he
    · exact pretty_ne_min p.1 p.1 he
    · exact hp he

theorem mainLoop_all_ok (data : Json) (tk : Bool) :
    ∀ table : List (Str × LocaleMap),
      mainLoop (fun _ => true) data tk table =
        (table.flatMap (fun p =>
          [(prettyFile p.1, translate_structure p.2 tk data),
           (minFile p.1, translate_structure p.2 tk data)]),
         table.length, none) := by
  intro table
  induction table with
  | nil => rfl
  | cons p t ih =>
    cases p
    rw [mainLoop]
    simp [ih]

theorem files_map_fst (data : Json) (tk : Bool) (table : List (Str × LocaleMap)) :
    (table.flatMap (fun p =>
      [(prettyFile p.1, translate_structure p.2 tk data),
       (minFile p.1, translate_structure p.2 tk data)])).map Prod.fst = pathsOf table := by
  induction table with
  | nil => rfl
  | cons p t ih =>
    simp only [List.flatMap_cons, List.map_append, ih, pathsOf]
    simp [pathsOf]

/-- C1: if `s` is verbatim a key of the Locale Map `M`, the substitution
engine returns `M[s]` itself; the whole-string match takes priority over
any partial lexeme substitution. -/
theorem c1_whole_string_priority (s v : Str) (M : LocaleMap)
    (h : lookupTok M s = some v) :
    replace_placeholders_in_string s M = v := by
  rw [replace_placeholders_in_string, h]

theorem c1_whole_string_priority_witness :
    lookupTok [("StrictlynecessaryCategoryName".toList, "Strictly Necessary".toList)]
        ("StrictlynecessaryCategoryName".toList) = some ("Strictly Necessary".toList) ∧
    replace_placeholders_in_string ("StrictlynecessaryCategoryName".toList)
        [("StrictlynecessaryCategoryName".toList, "Strictly Necessary".toList)] =
      "Strictly Necessary".toList :=
  ⟨by decide, c1_whole_string_priority _ _ _ (by decide)⟩

/-- C2: when `s` is not itself a key, the engine decomposes `s` into maximal
token-character lexemes and verbatim separators (the decomposition
reconstructs `s`, each chunk is a nonempty homogeneous run, and adjacent
chunks alternate, so runs are maximal), replaces exactly the lexemes that
are keys of `M`, leaves everything else in place, and returns `s` unchanged
when no lexeme matches; with `{CookiePolicyTableDays ↦ Tage}` the string
`"395 CookiePolicyTableDays"` becomes `"395 Tage"`, two known tokens are
both replaced independently, and an unmapped word passes through. -/
theorem c2_lexeme_rule (s : Str) (M : LocaleMap)
    (h : lookupTok M s = none) :
    (replace_placeholders_in_string s M = ((chunks s).map (substChunk M)).flatten ∧
     ((chunks s).map Prod.snd).flatten = s ∧
     (∀ p ∈ chunks s, chunkOk p) ∧
     alternating (chunks s) ∧
     ((∀ l ∈ lexemeList s, lookupTok M l = none) →
       replace_placeholders_in_string s M = s)) ∧
    replace_placeholders_in_string ("395 CookiePolicyTableDays".toList)
        [("CookiePolicyTableDays".toList, "Tage".toList)] = "395 Tage".toList ∧
    replace_placeholders_in_string ("CookiePolicyTableDays, CookiePolicyTableLifespan".toList)
        [("CookiePolicyTableDays".toList, "Tage".toList),
         ("CookiePolicyTableLifespan".toList, "Dauer".toList)] = "Tage, Dauer".toList ∧
    replace_placeholders_in_string ("RandomUnmappedWord".toList)
        [("CookiePolicyTableDays".toList, "Tage".toList)] = "RandomUnmappedWord".toList := by
  refine ⟨⟨?_, chunks_flatten s, chunks_ok s, chunks_alternating s,
      fun h2 => replace_id_of_tokenFree M s h h2⟩, ?_, ?_, ?_⟩
  · rw [replace_placeholders_in_string, h, subTokens_eq_chunks]
  · simp [replace_placeholders_in_string, lookupTok, subTokens, isTokenChar, String.toList]
  · simp [replace_placeholders_in_string, lookupTok, subTokens, isTokenChar, String.toList]
  · simp [replace_placeholders_in_string, lookupTok, subTokens, isTokenChar, String.toList]

theorem c2_lexeme_rule_witness :
    lookupTok [("CookiePolicyTableDays".toList, "Tage".toList)]
        ("395 CookiePolicyTableDays".toList) = none ∧
    ((replace_placeholders_in_string ("395 CookiePolicyTableDays".toList)
          [("CookiePolicyTableDays".toList, "Tage".toList)] =
        ((chunks ("395 CookiePolicyTableDays".toList)).map
          (substChunk [("CookiePolicyTableDays".toList, "Tage".toList)])).flatten ∧
      ((chunks ("395 CookiePolicyTableDays".toList)).map Prod.snd).flatten =
        "395 CookiePolicyTableDays".toList ∧
      (∀ p ∈ chunks ("395 CookiePolicyTableDays".toList), chunkOk p) ∧
      alternating (chunks ("395 CookiePolicyTableDays".toList)) ∧
      ((∀ l ∈ lexemeList ("395 CookiePolicyTableDays".toList),
          lookupTok [("CookiePolicyTableDays".toList, "Tage".toList)] l = none) →
        replace_placeholders_in_string ("395 CookiePolicyTableDays".toList)
          [("CookiePolicyTableDays".toList, "Tage".toList)] =
          "395 CookiePolicyTableDays".toList)) ∧
     replace_placeholders_in_string ("395 CookiePolicyTableDays".toList)
        [("CookiePolicyTableDays".toList, "Tage".toList)] = "395 Tage".toList ∧
     replace_placeholders_in_string ("CookiePolicyTableDays, CookiePolicyTableLifespan".toList)
        [("CookiePolicyTableDays".toList, "Tage".toList),
         ("CookiePolicyTableLifespan".toList, "Dauer".toList)] = "Tage, Dauer".toList ∧
     replace_placeholders_in_string ("RandomUnmappedWord".toList)
        [("CookiePolicyTableDays".toList, "Tage".toList)] = "RandomUnmappedWord".toList) :=
  ⟨by decide, c2_lexeme_rule _ _ (by decide)⟩

/-- C10: substitution is single-pass and never rescans replacement text:
with `M = {A ↦ B, B ↦ C}` translating `"A"` yields `"B"` and not `"C"`,
although a second application would give `"C"`, so the result is not a
fixed point of the substitution function. -/
theorem c10_single_pass :
    replace_placeholders_in_string ("A".toList)
        [("A".toList, "B".toList), ("B".toList, "C".toList)] = "B".toList ∧
    replace_placeholders_in_string
        (replace_placeholders_in_string ("A".toList)
          [("A".toList, "B".toList), ("B".toList, "C".toList)])
        [("A".toList, "B".toList), ("B".toList, "C".toList)] = "C".toList ∧
    replace_placeholders_in_string
        (replace_placeholders_in_string ("A".toList)
          [("A".toList, "B".toList), ("B".toList, "C".toList)])
        [("A".toList, "B".toList), ("B".toList, "C".toList)] ≠
      replace_placeholders_in_string ("A".toList)
        [("A".toList, "B".toList), ("B".toList, "C".toList)] := by
  refine ⟨?_, ?_, ?_⟩ <;>
    simp [replace_placeholders_in_string, lookupTok, String.toList]

/-- C6 counterexample: the engine has no case-insensitive fallback.  For
`M = {Abc ↦ x}` and `s = "abc"`, `s` is not an exact key, its lower-cased
form equals the lower-cased key, yet the engine returns `"abc"` unchanged
instead of the entry's value `"x"`. -/
theorem c6_case_fallback_counterexample :
    lookupTok [("Abc".toList, "x".toList)] ("abc".toList) = none ∧
    lowerStr ("abc".toList) = lowerStr ("Abc".toList) ∧
    replace_placeholders_in_string ("abc".toList) [("Abc".toList, "x".toList)] =
      "abc".toList ∧
    "abc".toList ≠ "x".toList := by
  refine ⟨by decide, by decide, ?_, by decide⟩
  simp [replace_placeholders_in_string, lookupTok, subTokens, isTokenChar, String.toList]

/-- C6 amended: the substitution engine performs only exact, case-sensitive
matching and has no case-insensitive fallback mode: a string none of whose
lexemes (nor the string itself) is verbatim a key of `M` is returned
unchanged, even when it differs from a key only by letter case. -/
theorem c6_exact_match_only (s : Str) (M : LocaleMap)
    (h1 : lookupTok M s = none)
    (h2 : ∀ l ∈ lexemeList s, lookupTok M l = none) :
    replace_placeholders_in_string s M = s :=
  replace_id_of_tokenFree M s h1 h2

theorem c6_exact_match_only_witness :
    (lookupTok [("Abc".toList, "x".toList)] ("abc".toList) = none ∧
     ∀ l ∈ lexemeList ("abc".toList), lookupTok [("Abc".toList, "x".toList)] l = none) ∧
    replace_placeholders_in_string ("abc".toList) [("Abc".toList, "x".toList)] =
      "abc".toList := by
  have h2 : ∀ l ∈ lexemeList ("abc".toList),
      lookupTok [("Abc".toList, "x".toList)] l = none := by
    simp [lexemeList, chunks, isTokenChar, lookupTok, String.toList]
  exact ⟨⟨by decide, h2⟩, c6_exact_match_only _ _ (by decide) h2⟩

/-- C3: with key-renaming disabled, translation preserves the tree shape
exactly — the skeleton (object keys in order, array lengths and order, and
all non-string leaves) of the output equals that of the input, and numeric,
boolean and null leaves are returned unchanged; only string leaves may
differ. -/
theorem c3_structure_preserved (M : LocaleMap) (t : Json) (h : wfJson t) :
    skeleton (translate_structure M false t) = skeleton t ∧
    (∀ n : Int, translate_structure M false (.num n) = .num n) ∧
    (∀ b : Bool, translate_structure M false (.bool b) = .bool b) ∧
    translate_structure M false .null = .null := by
  refine ⟨skeleton_translate_off M t h, ?_, ?_, ?_⟩
  · intro n
    rw [translate_structure]
  · intro b
    rw [translate_structure]
  · rw [translate_structure]

theorem c3_structure_preserved_witness :
    wfJson (Json.obj [("a".toList, Json.arr [Json.str ("x".toList), Json.num 3]),
        ("b".toList, Json.bool true)]) ∧
    (skeleton (translate_structure [("x".toList, "y".toList)] false
        (Json.obj [("a".toList, Json.arr [Json.str ("x".toList), Json.num 3]),
          ("b".toList, Json.bool true)])) =
      skeleton (Json.obj [("a".toList, Json.arr [Json.str ("x".toList), Json.num 3]),
        ("b".toList, Json.bool true)]) ∧
     (∀ n : Int, translate_structure [("x".toList, "y".toList)] false (.num n) = .num n) ∧
     (∀ b : Bool, translate_structure [("x".toList, "y".toList)] false (.bool b) = .bool b) ∧
     translate_structure [("x".toList, "y".toList)] false .null = .null) := by
  have hwf : wfJson (Json.obj [("a".toList, Json.arr [Json.str ("x".toList), Json.num 3]),
      ("b".toList, Json.bool true)]) := by
    simp [wfJson, wfEntries, wfItems, String.toList]
  exact ⟨hwf, c3_structure_preserved _ _ hwf⟩

/-- C5: translation is the identity on token-free input — if no string leaf
of a well-formed tree is a whole-string key of `M` or contains a lexeme that
is a key of `M`, the tree translator returns the tree itself, and for the
empty Locale Map this holds for every tree (with either value of the
key-renaming flag). -/
theorem c5_token_free_identity (M : LocaleMap) (tk : Bool) (t : Json)
    (h1 : wfJson t) (h2 : tokenFree M t) :
    translate_structure M false t = t ∧ translate_structure [] tk t = t :=
  ⟨translate_id_of_tokenFree M t h1 h2, translate_nil_id tk t h1⟩

theorem c5_token_free_identity_witness :
    (wfJson (Json.obj [("a".toList, Json.arr [Json.str ("395 days".toList), Json.num 3]),
        ("b".toList, Json.str ("plain".toList))]) ∧
     tokenFree [("CookiePolicyTableDays".toList, "Tage".toList)]
       (Json.obj [("a".toList, Json.arr [Json.str ("395 days".toList), Json.num 3]),
        ("b".toList, Json.str ("plain".toList))])) ∧
    (translate_structure [("CookiePolicyTableDays".toList, "Tage".toList)] false
        (Json.obj [("a".toList, Json.arr [Json.str ("395 days".toList), Json.num 3]),
          ("b".toList, Json.str ("plain".toList))]) =
      Json.obj [("a".toList, Json.arr [Json.str ("395 days".toList), Json.num 3]),
        ("b".toList, Json.str ("plain".toList))] ∧
     translate_structure [] true
        (Json.obj [("a".toList, Json.arr [Json.str ("395 days".toList), Json.num 3]),
          ("b".toList, Json.str ("plain".toList))]) =
      Json.obj [("a".toList, Json.arr [Json.str ("395 days".toList), Json.num 3]),
        ("b".toList, Json.str ("plain".toList))]) := by
  have hwf : wfJson (Json.obj [("a".toList, Json.arr [Json.str ("395 days".toList), Json.num 3]),
      ("b".toList, Json.str ("plain".toList))]) := by
    simp [wfJson, wfEntries, wfItems, String.toList]
  have hf : tokenFree [("CookiePolicyTableDays".toList, "Tage".toList)]
      (Json.obj [("a".toList, Json.arr [Json.str ("395 days".toList), Json.num 3]),
        ("b".toList, Json.str ("plain".toList))]) := by
    simp [tokenFree, tokenFreeEntries, tokenFreeItems, lexemeList, chunks,
      isTokenChar, lookupTok, String.toList]
  exact ⟨⟨hwf, hf⟩, c5_token_free_identity _ true _ hwf hf⟩

/-- C4: with `renameKeys` on, each object entry `(k, v)` is emitted in its
original position with value recursively translated, under key `M[tk]` when
`k` is in the field table with token `tk` present in `M`, under `k` when the
token is absent from `M` (fallback, never dropped), and under `k` when `k`
is not in the field table; concretely, `"Lifespan"` becomes `"Dauer"` in
place for `M = {CookiePolicyTableLifespan ↦ Dauer}` and stays `"Lifespan"`
for an empty `M`. -/
theorem c4_key_renaming (M : LocaleMap) (es : List (Str × Json))
    (h : (es.map (fun p => newKeyFor true M p.1)).Nodup) :
    translate_structure M true (.obj es) =
      .obj (es.map (fun p => (newKeyFor true M p.1, translate_structure M true p.2))) ∧
    (∀ k token w, lookupTok FIELD_KEY_TO_TRANSLATION_KEY k = some token →
      lookupTok M token = some w → newKeyFor true M k = w) ∧
    (∀ k token, lookupTok FIELD_KEY_TO_TRANSLATION_KEY k = some token →
      lookupTok M token = none → newKeyFor true M k = k) ∧
    (∀ k, lookupTok FIELD_KEY_TO_TRANSLATION_KEY k = none → newKeyFor true M k = k) ∧
    translate_structure [("CookiePolicyTableLifespan".toList, "Dauer".toList)] true
        (.obj [("id".toList, Json.null), ("Lifespan".toList, Json.null)]) =
      .obj [("id".toList, Json.null), ("Dauer".toList, Json.null)] ∧
    translate_structure [] true
        (.obj [("id".toList, Json.null), ("Lifespan".toList, Json.null)]) =
      .obj [("id".toList, Json.null), ("Lifespan".toList, Json.null)] := by
  refine ⟨?_, ?_, ?_, ?_, ?_, ?_⟩
  · rw [translate_structure, translateEntries_eq_map, pyDictOf_nodup]
    rw [List.map_map]
    simpa using h
  · intro k token w hF hM
    simp [newKeyFor, hF, hM]
  · intro k token hF hM
    simp [newKeyFor, hF, hM]
  · intro k hF
    simp [newKeyFor, hF]
  · simp [translate_structure, translateEntries, pyDictOf, dictInsert, newKeyFor,
      lookupTok, FIELD_KEY_TO_TRANSLATION_KEY, String.toList]
  · simp [translate_structure, translateEntries, pyDictOf, dictInsert, newKeyFor,
      lookupTok, FIELD_KEY_TO_TRANSLATION_KEY, String.toList]

theorem c4_key_renaming_witness :
    ((([("id".toList, Json.null), ("Lifespan".toList, Json.null)] : List (Str × Json)).map
        (fun p => newKeyFor true [("CookiePolicyTableLifespan".toList, "Dauer".toList)] p.1)).Nodup) ∧
    translate_structure [("CookiePolicyTableLifespan".toList, "Dauer".toList)] true
        (.obj [("id".toList, Json.null), ("Lifespan".toList, Json.null)]) =
      .obj (([("id".toList, Json.null), ("Lifespan".toList, Json.null)] : List (Str × Json)).map
        (fun p => (newKeyFor true [("CookiePolicyTableLifespan".toList, "Dauer".toList)] p.1,
          translate_structure [("CookiePolicyTableLifespan".toList, "Dauer".toList)] true p.2))) :=
  ⟨by decide, (c4_key_renaming _ _ (by decide)).1⟩

/-- C9: with `renameKeys` on, the key set is not always preserved — when two
distinct keys of one object rename to the same output key, the output object
has a single entry under that key holding the translated value of the later
input entry (the earlier one is overwritten in place), so the output has
fewer entries than the input. -/
theorem c9_key_collision (M : LocaleMap) (k1 k2 K : Str) (v1 v2 : Json)
    (_h1 : k1 ≠ k2) (h2 : newKeyFor true M k1 = K) (h3 : newKeyFor true M k2 = K) :
    translate_structure M true (.obj [(k1, v1), (k2, v2)]) =
      .obj [(K, translate_structure M true v2)] ∧
    ([(K, translate_structure M true v2)] : List (Str × Json)).length <
      ([(k1, v1), (k2, v2)] : List (Str × Json)).length := by
  refine ⟨?_, by simp⟩
  rw [translate_structure, translateEntries, translateEntries, translateEntries, h2, h3]
  simp [pyDictOf, dictInsert]

theorem c9_key_collision_witness :
    ("Cookies".toList ≠ "Cookies used".toList ∧
     newKeyFor true [("CookiePolicyTableCookies".toList, "X".toList),
        ("CookiePolicyTableCookiesUsed".toList, "X".toList)] ("Cookies".toList) = "X".toList ∧
     newKeyFor true [("CookiePolicyTableCookies".toList, "X".toList),
        ("CookiePolicyTableCookiesUsed".toList, "X".toList)] ("Cookies used".toList) =
       "X".toList) ∧
    (translate_structure [("CookiePolicyTableCookies".toList, "X".toList),
        ("CookiePolicyTableCookiesUsed".toList, "X".toList)] true
        (.obj [("Cookies".toList, Json.num 1), ("Cookies used".toList, Json.num 2)]) =
      .obj [("X".toList, translate_structure [("CookiePolicyTableCookies".toList, "X".toList),
        ("CookiePolicyTableCookiesUsed".toList, "X".toList)] true (Json.num 2))] ∧
     ([("X".toList, translate_structure [("CookiePolicyTableCookies".toList, "X".toList),
        ("CookiePolicyTableCookiesUsed".toList, "X".toList)] true (Json.num 2))] :
          List (Str × Json)).length <
       ([("Cookies".toList, Json.num 1), ("Cookies used".toList, Json.num 2)] :
          List (Str × Json)).length) :=
  ⟨⟨by decide, by decide, by decide⟩,
   c9_key_collision _ _ _ _ _ _ (by decide) (by decide) (by decide)⟩

/-- C7 counterexample: with two locales `aa` and `bb` and a write that fails
on `aa`'s pretty file, the loop aborts at `aa` — nothing is written, zero
locales are processed, and `bb`'s file is never produced, refuting
partial-failure tolerance. -/
theorem c7_no_tolerance_counterexample :
    mainLoop (fun p => p != prettyFile ("aa".toList)) Json.null false
        [("aa".toList, []), ("bb".toList, [])] = ([], 0, some ("aa".toList)) ∧
    prettyFile ("bb".toList) ∉
      ((mainLoop (fun p => p != prettyFile ("aa".toList)) Json.null false
        [("aa".toList, []), ("bb".toList, [])]).1.map Prod.fst) := by
  have h0 : mainLoop (fun p => p != prettyFile ("aa".toList)) Json.null false
      [("aa".toList, []), ("bb".toList, [])] = ([], 0, some ("aa".toList)) := by
    rw [mainLoop]
    simp [prettyFile, String.toList]
  refine ⟨h0, ?_⟩
  rw [h0]
  simp

/-- C7 amended: a failure while writing one locale's output aborts the whole
run — the loop raises out of `main` at the failing locale, no further locale
is processed or written, and the processed count never includes the failing
or any later locale. -/
theorem c7_write_failure_aborts (w : Str → Bool) (data : Json) (tk : Bool)
    (locale : Str) (M : LocaleMap) (rest : List (Str × LocaleMap)) :
    (w (prettyFile locale) = false →
      mainLoop w data tk ((locale, M) :: rest) = ([], 0, some locale)) ∧
    (w (prettyFile locale) = true → w (minFile locale) = false →
      mainLoop w data tk ((locale, M) :: rest) =
        ([(prettyFile locale, translate_structure M tk data)], 0, some locale)) := by
  constructor
  · intro h
    rw [mainLoop]
    simp [h]
  · intro h1 h2
    rw [mainLoop]
    simp [h1, h2]

theorem c7_write_failure_aborts_witness :
    ((fun p => p != prettyFile ("aa".toList)) (prettyFile ("aa".toList)) = false) ∧
    mainLoop (fun p => p != prettyFile ("aa".toList)) Json.null false
        [("aa".toList, []), ("bb".toList, [])] = ([], 0, some ("aa".toList)) :=
  ⟨by decide,
   (c7_write_failure_aborts (fun p => p != prettyFile ("aa".toList)) Json.null false
     ("aa".toList) [] [("bb".toList, [])]).1 (by decide)⟩

theorem files_length (data : Json) (tk : Bool) (table : List (Str × LocaleMap)) :
    (table.flatMap (fun p =>
      [(prettyFile p.1, translate_structure p.2 tk data),
       (minFile p.1, translate_structure p.2 tk data)])).length = 2 * table.length := by
  induction table with
  | nil => rfl
  | cons p t ih =>
    simp only [List.flatMap_cons, List.length_append, ih, List.length_cons]
    simp only [List.length_nil, List.length_cons]
    omega

/-- C8: a fully successful run over a table of N distinct locales writes
exactly the 2N files — for each locale in order, one pretty file
`out/cookie_data_<locale>.json` and one minified file
`minified/cookie_data_<locale>.min.json`, both holding that locale's
translated document — reports N locales processed, produces pairwise
distinct paths, and the file names are derived injectively from the locale
identifier. -/
theorem c8_batch_completeness (table : List (Str × LocaleMap)) (data : Json) (tk : Bool)
    (h : (table.map Prod.fst).Nodup) :
    mainLoop (fun _ => true) data tk table =
      (table.flatMap (fun p =>
        [(prettyFile p.1, translate_structure p.2 tk data),
         (minFile p.1, translate_structure p.2 tk data)]),
       table.length, none) ∧
    ((mainLoop (fun _ => true) data tk table).1.map Prod.fst).Nodup ∧
    (mainLoop (fun _ => true) data tk table).1.length = 2 * table.length ∧
    (∀ l1 l2 : Str, prettyFile l1 = prettyFile l2 → l1 = l2) ∧
    (∀ l1 l2 : Str, minFile l1 = minFile l2 → l1 = l2) := by
  have hmain := mainLoop_all_ok data tk table
  refine ⟨hmain, ?_, ?_, prettyFile_inj, minFile_inj⟩
  · rw [hmain]
    simp only [files_map_fst]
    exact pathsOf_nodup table h
  · rw [hmain]
    exact files_length data tk table

theorem c8_batch_completeness_witness :
    (([("de".toList, ([] : LocaleMap)), ("en".toList, ([] : LocaleMap))].map
        Prod.fst).Nodup) ∧
    mainLoop (fun _ => true) Json.null false
        [("de".toList, []), ("en".toList, [])] =
      ([("de".toList, ([] : LocaleMap)), ("en".toList, ([] : LocaleMap))].flatMap (fun p =>
        [(prettyFile p.1, translate_structure p.2 false Json.null),
         (minFile p.1, translate_structure p.2 false Json.null)]),
       2, none) :=
  ⟨by decide,
   (c8_batch_completeness [("de".toList, []), ("en".toList, [])] Json.null false
     (by decide)).1⟩
